import Mathlib

/-
  Formal model of the ozzy HTTP client core (src/core/Api.ts).

  The `Api` class owns a base URL, an auth strategy, a mutable header array
  and a mutable middleware list.  Its middleware chain engine
  (`applyMiddleware`) drives the list through a continuation-passing cursor
  (`nextHandler`), and its verb operations (get/put/post/delete) push
  call-level middleware onto the persistent list before delegating to
  `fetch`, which builds the request, pushes the auth headers onto the
  handle's header array, calls the transport, and passes the response
  through the chain.

  Mutable state is modelled by explicit state passing (`Api α` in, `Api α`
  out); promise rejection and thrown errors are modelled with `Except`.
-/

set_option autoImplicit false

namespace Ozzy

/--
Modelled from the spec: the `Middleware` function type
(`src/types/Middleware` is not under src/).  A middleware receives the
current data value and a continuation `next`; it may forward a transformed
value by tail-calling `next`, return without calling `next`
(short-circuit), throw, or call `next` once and transform its result
before returning.  These four shapes form a closed family of middleware
behaviours, each determined by plain functions on the data type.
-/
inductive Middleware (α : Type) where
  | forward (f : α → α)
  | stop (f : α → α)
  | fail (e : String)
  | post (f : α → α) (g : α → α)

/--
Errors that can surface from a chain run: `notAFunction` models the
TypeError raised by `this.middleware[index](...)` when the element does
not exist (empty list), `thrown e` models a middleware throwing
internally.
-/
inductive MwError where
  | notAFunction
  | thrown (e : String)
deriving DecidableEq

/--
Outcome of a chain run: the value produced (or the error raised), paired
with the trace of middleware indices that were actually invoked, in
invocation order.
-/
abbrev ChainOut (α : Type) := Except MwError α × List Nat

mutual
/--
The continuation closure of `Api.applyMiddleware` (src/core/Api.ts):
`nextHandler` increments the shared cursor and, if the new cursor is past
the last index (`index >= this.middleware.length`), returns the value as
the terminal result; otherwise it invokes the middleware at the new cursor
position.
-/
def nextHandler {α : Type} (mws : List (Middleware α)) (idx : Nat) (v : α) :
    ChainOut α :=
  if h : idx + 1 ≥ mws.length then (Except.ok v, [])
  else invoke mws (idx + 1) v
termination_by 2 * (mws.length - idx) + 1

/--
Invocation step `this.middleware[idx](d, nextHandler)` of the chain engine
in src/core/Api.ts.  If no middleware exists at `idx` the call raises
(`notAFunction`); otherwise the middleware's behaviour runs: a `forward`
tail-calls the continuation on the transformed value, a `stop` returns
without calling the continuation, a `fail` throws, and a `post` calls the
continuation once and post-processes its result.  The invoked index is
recorded on the trace.
-/
def invoke {α : Type} (mws : List (Middleware α)) (idx : Nat) (d : α) :
    ChainOut α :=
  match mws[idx]? with
  | none => (Except.error MwError.notAFunction, [])
  | some (.forward f) =>
      let r := nextHandler mws idx (f d)
      (r.1, idx :: r.2)
  | some (.stop f) => (Except.ok (f d), [idx])
  | some (.fail e) => (Except.error (MwError.thrown e), [idx])
  | some (.post f g) =>
      let r := nextHandler mws idx (f d)
      (r.1.map g, idx :: r.2)
termination_by 2 * (mws.length - idx + 1)
end

/--
Modelled from the spec: the Auth strategy (`src/core/Auth.ts` is not under
src/), reduced to its header-contribution interface: `getHeaders()`
returns the header key/value pairs (as two-element arrays, matching the
`Array<Array<string>>` representation of headers) to attach to every
request on the handle.
-/
structure Auth where
  getHeaders : List (List String)

/--
Modelled from the spec: the REST method enum (`src/enums/RestMethods` is
not under src/).
-/
inductive RestMethods where
  | GET
  | PUT
  | POST
  | DELETE
deriving DecidableEq

/--
Model of a platform `URL` object built by `new URL(url, base)`: it records
the relative url and the base it is resolved against, plus the list of
appended search parameters (in append order).  URL parsing itself is
platform code and outside the repository; the object keeps its inputs
symbolically.
-/
structure URLObj where
  relative : String
  base : String
  searchParams : List (String × String)
deriving DecidableEq

/-- Model of the platform constructor `new URL(url, base)`. -/
def newURL (url base : String) : URLObj :=
  ⟨url, base, []⟩

/-- Model of `urlObject.searchParams.append(key, value)`. -/
def URLObj.appendParam (u : URLObj) (k v : String) : URLObj :=
  { u with searchParams := u.searchParams ++ [(k, v)] }

/--
The value passed as the `headers` field of the request options in
`Api.fetch`.  JavaScript is untyped here: the code can pass either an
array of header pairs or (as it actually does, via the return value of
`Array.push`) a number.
-/
inductive HeaderArg where
  | pairs (hs : List (List String))
  | count (n : Nat)
deriving DecidableEq

/-- The per-verb request options object (`{ method, body? }`). -/
structure RequestOptions where
  method : RestMethods
  body : Option String := none
deriving DecidableEq

/-- The full argument record handed to the transport (`fetch(fullUrl, {...})`). -/
structure RequestRec where
  url : URLObj
  headers : HeaderArg
  options : RequestOptions
deriving DecidableEq

/--
The transport (node-fetch) as an external collaborator: it receives the
request record and either produces a raw response (the value fed to the
middleware chain) or fails with a network error.
-/
abbrev Transport (α : Type) := RequestRec → Except String α

/-- Errors surfacing on a call's rejection path. -/
inductive FetchError where
  | transport (e : String)
  | chain (e : MwError)
deriving DecidableEq

/--
What a call makes observable: the settled result (resolved value or
rejection), the trace of middleware indices invoked, and the request
record that was handed to the transport.
-/
structure FetchOutcome (α : Type) where
  result : Except FetchError α
  trace : List Nat
  sent : RequestRec

/--
The `Api` class state (src/core/Api.ts): base URL, auth strategy, header
array and middleware list.  The type parameter is the data type flowing
through the middleware chain (responses and their transforms; `any` in
the source).
-/
structure Api (α : Type) where
  baseUrl : String
  auth : Auth
  headers : List (List String)
  middleware : List (Middleware α)

/--
`Api.constructUrlWithQueryParams` (src/core/Api.ts): builds
`new URL(url, this.baseUrl)` and appends every entry of `params` (a
`Record<string, string>`, modelled as a list of key/value pairs in
enumeration order) via `searchParams.append`.  The method reads only
`this.baseUrl` and mutates nothing; state passing makes that explicit.
-/
def Api.constructUrlWithQueryParams {α : Type} (s : Api α) (url : String)
    (params : List (String × String)) : URLObj × Api α :=
  (params.foldl (fun u p => u.appendParam p.1 p.2) (newURL url s.baseUrl), s)

/--
`Api.use` (src/core/Api.ts): `this.middleware.push(middleware)`.  The
method returns `void`; its effect is the updated handle state.
-/
def Api.use {α : Type} (s : Api α) (m : Middleware α) : Api α :=
  { s with middleware := s.middleware ++ [m] }

/--
`Api.applyMiddleware` (src/core/Api.ts): sets the shared cursor to 0 and
returns `this.middleware[0](data, nextHandler)`.
-/
def Api.applyMiddleware {α : Type} (s : Api α) (data : α) : ChainOut α :=
  invoke s.middleware 0 data

/--
`Api.fetch` (src/core/Api.ts): builds `new URL(url, this.baseUrl)`,
evaluates `this.headers.push(...this.auth.getHeaders())` — which appends
the auth headers onto the handle's header array **and returns the new
length of that array**, which is what gets bound to `combinedHeaders` and
passed as the `headers` request option — then calls the transport and
pipes the response through `applyMiddleware`.  The trailing
`.catch(error => Promise.reject(error))` re-rejects with the same error,
so failures pass through unchanged.
-/
def Api.fetch {α : Type} (transport : Transport α) (s : Api α) (url : String)
    (options : RequestOptions) : FetchOutcome α × Api α :=
  let fullUrl := newURL url s.baseUrl
  let pushedHeaders := s.headers ++ s.auth.getHeaders
  let combinedHeaders := HeaderArg.count pushedHeaders.length
  let s' : Api α := { s with headers := pushedHeaders }
  let req : RequestRec := ⟨fullUrl, combinedHeaders, options⟩
  match transport req with
  | Except.error e => (⟨Except.error (FetchError.transport e), [], req⟩, s')
  | Except.ok resp =>
      let r := s'.applyMiddleware resp
      (⟨r.1.mapError FetchError.chain, r.2, req⟩, s')

/--
`Api.get` (src/core/Api.ts): pushes the call-level middleware onto the
persistent list, then fetches with `{ method: RestMethods.GET }`.
-/
def Api.get {α : Type} (transport : Transport α) (s : Api α) (url : String)
    (middleware : List (Middleware α)) : FetchOutcome α × Api α :=
  let s₁ : Api α := { s with middleware := s.middleware ++ middleware }
  Api.fetch transport s₁ url { method := RestMethods.GET }

/--
`Api.put` (src/core/Api.ts): pushes the call-level middleware, then
fetches with `{ body: JSON.stringify(payload), method: RestMethods.PUT }`.
JSON serialization is platform code, abstracted as the `stringify`
parameter.
-/
def Api.put {α : Type} (transport : Transport α) (stringify : String → String)
    (s : Api α) (url : String) (payload : String)
    (middleware : List (Middleware α)) : FetchOutcome α × Api α :=
  let s₁ : Api α := { s with middleware := s.middleware ++ middleware }
  Api.fetch transport s₁ url
    { method := RestMethods.PUT, body := some (stringify payload) }

/--
`Api.post` (src/core/Api.ts): pushes the call-level middleware, then
fetches with `{ body: JSON.stringify(payload), method: RestMethods.POST }`.
-/
def Api.post {α : Type} (transport : Transport α) (stringify : String → String)
    (s : Api α) (url : String) (payload : String)
    (middleware : List (Middleware α)) : FetchOutcome α × Api α :=
  let s₁ : Api α := { s with middleware := s.middleware ++ middleware }
  Api.fetch transport s₁ url
    { method := RestMethods.POST, body := some (stringify payload) }

/--
`Api.delete` (src/core/Api.ts): pushes the call-level middleware, then
fetches with `{ body: JSON.stringify(payload), method: RestMethods.DELETE }`.
-/
def Api.delete {α : Type} (transport : Transport α) (stringify : String → String)
    (s : Api α) (url : String) (payload : String)
    (middleware : List (Middleware α)) : FetchOutcome α × Api α :=
  let s₁ : Api α := { s with middleware := s.middleware ++ middleware }
  Api.fetch transport s₁ url
    { method := RestMethods.DELETE, body := some (stringify payload) }

/--
Iterating `n` successive `get` calls (with no call-level middleware) on
the same handle, threading the mutated state.
-/
def iterGet {α : Type} (transport : Transport α) (url : String) :
    Nat → Api α → Api α
  | 0, s => s
  | n + 1, s => iterGet transport url n (Api.get transport s url []).2

/--
Structural reference runner for the chain engine: runs the suffix of the
middleware list starting at the current cursor, returning the result and
the number of middleware invoked.  `invoke` is proved equal to it (with
the trace being the corresponding index interval) in
`invoke_eq_runFrom`; being structurally recursive, `runFrom` evaluates by
`rfl`/`decide` on concrete inputs.
-/
def runFrom {α : Type} : List (Middleware α) → α → Except MwError α × Nat
  | [], _ => (Except.error MwError.notAFunction, 0)
  | .forward f :: rest, d =>
      match rest with
      | [] => (Except.ok (f d), 1)
      | r :: rs =>
          let o := runFrom (r :: rs) (f d)
          (o.1, o.2 + 1)
  | .stop f :: _, d => (Except.ok (f d), 1)
  | .fail e :: _, _ => (Except.error (MwError.thrown e), 1)
  | .post f g :: rest, d =>
      match rest with
      | [] => (Except.ok (g (f d)), 1)
      | r :: rs =>
          let o := runFrom (r :: rs) (f d)
          (o.1.map g, o.2 + 1)

/-- Unfolding equation: invoking a missing element raises. -/
theorem invoke_none {α : Type} {mws : List (Middleware α)} {idx : Nat}
    (h : mws[idx]? = none) (d : α) :
    invoke mws idx d = (Except.error MwError.notAFunction, []) := by
  rw [invoke, h]

/-- Unfolding equation: a `forward` middleware tail-calls the continuation. -/
theorem invoke_forward {α : Type} {mws : List (Middleware α)} {idx : Nat}
    {f : α → α} (h : mws[idx]? = some (.forward f)) (d : α) :
    invoke mws idx d =
      ((nextHandler mws idx (f d)).1, idx :: (nextHandler mws idx (f d)).2) := by
  rw [invoke, h]

/-- Unfolding equation: a `stop` middleware returns without the continuation. -/
theorem invoke_stop {α : Type} {mws : List (Middleware α)} {idx : Nat}
    {f : α → α} (h : mws[idx]? = some (.stop f)) (d : α) :
    invoke mws idx d = (Except.ok (f d), [idx]) := by
  rw [invoke, h]

/-- Unfolding equation: a `fail` middleware throws. -/
theorem invoke_fail {α : Type} {mws : List (Middleware α)} {idx : Nat}
    {e : String} (h : mws[idx]? = some (.fail e)) (d : α) :
    invoke mws idx d = (Except.error (MwError.thrown e), [idx]) := by
  rw [invoke, h]

/-- Unfolding equation: a `post` middleware post-processes the continuation. -/
theorem invoke_post {α : Type} {mws : List (Middleware α)} {idx : Nat}
    {f g : α → α} (h : mws[idx]? = some (.post f g)) (d : α) :
    invoke mws idx d =
      ((nextHandler mws idx (f d)).1.map g,
       idx :: (nextHandler mws idx (f d)).2) := by
  rw [invoke, h]

/-- Unfolding equation: the continuation past the last index terminates. -/
theorem nextHandler_done {α : Type} {mws : List (Middleware α)} {idx : Nat}
    (h : idx + 1 ≥ mws.length) (v : α) :
    nextHandler mws idx v = (Except.ok v, []) := by
  rw [nextHandler, dif_pos h]

/-- Unfolding equation: the continuation inside the list invokes the next index. -/
theorem nextHandler_go {α : Type} {mws : List (Middleware α)} {idx : Nat}
    (h : ¬ idx + 1 ≥ mws.length) (v : α) :
    nextHandler mws idx v = invoke mws (idx + 1) v := by
  rw [nextHandler, dif_neg h]

/--
Bridge between the continuation-passing engine and the structural runner:
invoking the chain at cursor `idx` behaves like running the suffix
`mws.drop idx`, and the trace is the interval of indices starting at
`idx` whose length is the number of middleware invoked.
-/
theorem invoke_eq_runFrom {α : Type} (mws : List (Middleware α)) :
    ∀ (n idx : Nat), mws.length - idx = n → ∀ d : α,
      invoke mws idx d =
        ((runFrom (mws.drop idx) d).1,
         List.range' idx (runFrom (mws.drop idx) d).2) := by
  intro n
  induction n with
  | zero =>
      intro idx hn d
      have hlen : mws.length ≤ idx := by omega
      rw [invoke_none (List.getElem?_eq_none hlen)]
      simp [List.drop_eq_nil_of_le hlen, runFrom]
  | succ n ih =>
      intro idx hn d
      have hidx : idx < mws.length := by omega
      have hdrop : mws.drop idx = mws[idx] :: mws.drop (idx + 1) :=
        List.drop_eq_getElem_cons hidx
      have hnext : mws.length - (idx + 1) = n := by omega
      have hget : mws[idx]? = some mws[idx] := List.getElem?_eq_getElem hidx
      cases hm : mws[idx] with
      | forward f =>
          rw [hm] at hget hdrop
          by_cases hend : idx + 1 ≥ mws.length
          · rw [invoke_forward hget, nextHandler_done hend]
            simp [hdrop, List.drop_eq_nil_of_le hend, runFrom,
              List.range'_succ, List.range'_one]
          · obtain ⟨r, rs, hcons⟩ : ∃ r rs, mws.drop (idx + 1) = r :: rs := by
              have hne : mws.drop (idx + 1) ≠ [] := by
                intro hnil
                have := List.drop_eq_nil_iff.mp hnil
                omega
              cases hc : mws.drop (idx + 1) with
              | nil => exact absurd hc hne
              | cons r rs => exact ⟨r, rs, rfl⟩
            rw [invoke_forward hget, nextHandler_go hend,
              ih (idx + 1) hnext (f d)]
            simp [hdrop, hcons, runFrom, List.range'_succ]
      | stop f =>
          rw [hm] at hget hdrop
          rw [invoke_stop hget]
          simp [hdrop, runFrom, List.range'_succ, List.range'_one]
      | fail e =>
          rw [hm] at hget hdrop
          rw [invoke_fail hget]
          simp [hdrop, runFrom, List.range'_succ, List.range'_one]
      | post f g =>
          rw [hm] at hget hdrop
          by_cases hend : idx + 1 ≥ mws.length
          · rw [invoke_post hget, nextHandler_done hend]
            simp [hdrop, List.drop_eq_nil_of_le hend, runFrom,
              List.range'_succ, List.range'_one, Except.map]
          · obtain ⟨r, rs, hcons⟩ : ∃ r rs, mws.drop (idx + 1) = r :: rs := by
              have hne : mws.drop (idx + 1) ≠ [] := by
                intro hnil
                have := List.drop_eq_nil_iff.mp hnil
                omega
              cases hc : mws.drop (idx + 1) with
              | nil => exact absurd hc hne
              | cons r rs => exact ⟨r, rs, rfl⟩
            rw [invoke_post hget, nextHandler_go hend,
              ih (idx + 1) hnext (f d)]
            simp [hdrop, hcons, runFrom, List.range'_succ]

/--
The chain engine as a whole: `applyMiddleware` equals the structural
runner on the full middleware list, with the trace being the initial
segment `[0, ..., k-1]` of invoked indices.
-/
theorem applyMiddleware_eq_runFrom {α : Type} (s : Api α) (d : α) :
    s.applyMiddleware d =
      ((runFrom s.middleware d).1, List.range (runFrom s.middleware d).2) := by
  have h := invoke_eq_runFrom s.middleware (s.middleware.length) 0 (by omega) d
  simpa [Api.applyMiddleware, List.range_eq_range'] using h

/-- Unfolding equation of `runFrom` on the empty suffix. -/
theorem runFrom_nil {α : Type} (d : α) :
    runFrom ([] : List (Middleware α)) d = (Except.error MwError.notAFunction, 0) := rfl

/-- Unfolding equation of `runFrom`: terminal `forward`. -/
theorem runFrom_forward_last {α : Type} (f : α → α) (d : α) :
    runFrom [Middleware.forward f] d = (Except.ok (f d), 1) := rfl

/-- Unfolding equation of `runFrom`: inner `forward`. -/
theorem runFrom_forward_cons {α : Type} (f : α → α) (r : Middleware α)
    (rs : List (Middleware α)) (d : α) :
    runFrom (Middleware.forward f :: r :: rs) d =
      ((runFrom (r :: rs) (f d)).1, (runFrom (r :: rs) (f d)).2 + 1) := rfl

/-- Unfolding equation of `runFrom`: `stop`. -/
theorem runFrom_stop_cons {α : Type} (f : α → α) (rest : List (Middleware α))
    (d : α) :
    runFrom (Middleware.stop f :: rest) d = (Except.ok (f d), 1) := rfl

/-- Unfolding equation of `runFrom`: `fail`. -/
theorem runFrom_fail_cons {α : Type} (e : String) (rest : List (Middleware α))
    (d : α) :
    runFrom (Middleware.fail e :: rest) d =
      (Except.error (MwError.thrown e), 1) := rfl

/--
The composite transformation applied by a sequence of forwarding
middleware: each function applied in list order.
-/
def pipeline {α : Type} (fs : List (α → α)) (d : α) : α :=
  fs.foldl (fun a f => f a) d

/-- Unfolding equation of `pipeline`. -/
theorem pipeline_cons {α : Type} (f : α → α) (fs : List (α → α)) (d : α) :
    pipeline (f :: fs) d = pipeline fs (f d) := rfl

/-- A pipeline of identity functions is the identity. -/
theorem pipeline_replicate_id {α : Type} (n : Nat) (d : α) :
    pipeline (List.replicate n (id : α → α)) d = d := by
  induction n with
  | zero => rfl
  | succ n ih => simpa [List.replicate_succ, pipeline_cons] using ih

/--
Running a forwarding prefix followed by a nonempty remainder runs the
remainder on the piped value and adds the prefix length to the count.
-/
theorem runFrom_map_forward_append {α : Type} (fs : List (α → α))
    (rest : List (Middleware α)) (hrest : rest ≠ []) :
    ∀ d : α,
      runFrom (fs.map Middleware.forward ++ rest) d =
        ((runFrom rest (pipeline fs d)).1,
         (runFrom rest (pipeline fs d)).2 + fs.length) := by
  induction fs with
  | nil => intro d; simp [pipeline]
  | cons f fs ih =>
      intro d
      cases hL : fs.map Middleware.forward ++ rest with
      | nil => exact absurd (List.append_eq_nil.mp hL).2 hrest
      | cons r rs =>
          have h1 : runFrom ((f :: fs).map Middleware.forward ++ rest) d
              = ((runFrom (fs.map Middleware.forward ++ rest) (f d)).1,
                 (runFrom (fs.map Middleware.forward ++ rest) (f d)).2 + 1) := by
            rw [List.map_cons, List.cons_append, hL]
            exact runFrom_forward_cons f r rs d
          rw [h1, ih (f d), pipeline_cons]
          simp [Nat.add_assoc]

/-- Running a nonempty all-forwarding list succeeds with the piped value. -/
theorem runFrom_map_forward {α : Type} (fs : List (α → α)) :
    ∀ d : α, fs ≠ [] →
      runFrom (fs.map Middleware.forward) d =
        (Except.ok (pipeline fs d), fs.length) := by
  induction fs with
  | nil => intro d h; exact absurd rfl h
  | cons f fs ih =>
      intro d _
      cases fs with
      | nil => simp [runFrom_forward_last, pipeline]
      | cons f' fs' =>
          have h1 : runFrom ((f :: f' :: fs').map Middleware.forward) d
              = ((runFrom ((f' :: fs').map Middleware.forward) (f d)).1,
                 (runFrom ((f' :: fs').map Middleware.forward) (f d)).2 + 1) := by
            rw [List.map_cons, List.map_cons]
            exact runFrom_forward_cons f _ _ d
          rw [h1, ih (f d) (by simp)]
          simp [pipeline_cons]

/--
Running a forwarding prefix, then a short-circuiting middleware, then
anything: the `stop` middleware's return value is the result, and exactly
the prefix plus the `stop` are counted.
-/
theorem runFrom_stop_chain {α : Type} (fs : List (α → α)) (g : α → α)
    (rest : List (Middleware α)) (d : α) :
    runFrom (fs.map Middleware.forward ++ Middleware.stop g :: rest) d =
      (Except.ok (g (pipeline fs d)), fs.length + 1) := by
  rw [runFrom_map_forward_append fs (Middleware.stop g :: rest)
    (by simp) d, runFrom_stop_cons]
  simp [Nat.add_comm]

/--
Running a forwarding prefix, then a throwing middleware, then anything:
the thrown error is the result, and exactly the prefix plus the failing
middleware are counted.
-/
theorem runFrom_fail_chain {α : Type} (fs : List (α → α)) (e : String)
    (rest : List (Middleware α)) (d : α) :
    runFrom (fs.map Middleware.forward ++ Middleware.fail e :: rest) d =
      (Except.error (MwError.thrown e), fs.length + 1) := by
  rw [runFrom_map_forward_append fs (Middleware.fail e :: rest)
    (by simp) d, runFrom_fail_cons]
  simp [Nat.add_comm]

/-- The request record `Api.fetch` builds and hands to the transport. -/
def reqOf {α : Type} (s : Api α) (url : String) (options : RequestOptions) :
    RequestRec :=
  ⟨newURL url s.baseUrl,
   HeaderArg.count (s.headers ++ s.auth.getHeaders).length, options⟩

/--
Characterization of `Api.fetch` by cases on the transport result: the
request `reqOf` is sent, the auth headers are pushed onto the handle's
header array, and the response (if any) runs through the chain engine on
the handle's middleware list.
-/
theorem fetch_cases {α : Type} (tr : Transport α) (s : Api α) (url : String)
    (o : RequestOptions) :
    Api.fetch tr s url o =
      match tr (reqOf s url o) with
      | Except.error e =>
          (⟨Except.error (FetchError.transport e), [], reqOf s url o⟩,
           { s with headers := s.headers ++ s.auth.getHeaders })
      | Except.ok resp =>
          (⟨(invoke s.middleware 0 resp).1.mapError FetchError.chain,
            (invoke s.middleware 0 resp).2, reqOf s url o⟩,
           { s with headers := s.headers ++ s.auth.getHeaders }) := rfl

/-- `Api.fetch` always sends exactly the request record `reqOf`. -/
theorem fetch_sent {α : Type} (tr : Transport α) (s : Api α) (url : String)
    (o : RequestOptions) :
    (Api.fetch tr s url o).1.sent = reqOf s url o := by
  rw [fetch_cases]
  cases htr : tr (reqOf s url o) <;> simp

/--
`Api.fetch` leaves the handle state with the auth headers pushed onto the
header array and everything else untouched, whatever the transport does.
-/
theorem fetch_state {α : Type} (tr : Transport α) (s : Api α) (url : String)
    (o : RequestOptions) :
    (Api.fetch tr s url o).2 =
      { s with headers := s.headers ++ s.auth.getHeaders } := by
  rw [fetch_cases]
  cases htr : tr (reqOf s url o) <;> simp

/-- `Api.fetch` outcome when the transport fails. -/
theorem fetch_transport_error {α : Type} {tr : Transport α} {s : Api α}
    {url : String} {o : RequestOptions} {e : String}
    (htr : tr (reqOf s url o) = Except.error e) :
    (Api.fetch tr s url o).1 =
      ⟨Except.error (FetchError.transport e), [], reqOf s url o⟩ := by
  rw [fetch_cases, htr]

/-- `Api.fetch` outcome when the transport succeeds: the response runs
through the chain engine on the handle's middleware list. -/
theorem fetch_transport_ok {α : Type} {tr : Transport α} {s : Api α}
    {url : String} {o : RequestOptions} {resp : α}
    (htr : tr (reqOf s url o) = Except.ok resp) :
    (Api.fetch tr s url o).1 =
      ⟨(invoke s.middleware 0 resp).1.mapError FetchError.chain,
       (invoke s.middleware 0 resp).2, reqOf s url o⟩ := by
  rw [fetch_cases, htr]

/--
Folding `searchParams.append` over a parameter list appends exactly that
list, in order.
-/
theorem foldl_appendParam (params : List (String × String)) :
    ∀ u : URLObj,
      params.foldl (fun u p => u.appendParam p.1 p.2) u =
        { u with searchParams := u.searchParams ++ params } := by
  induction params with
  | nil => intro u; simp
  | cons p ps ih =>
      intro u
      rw [List.foldl_cons, ih]
      simp [URLObj.appendParam]

/--
After `n` iterated `get` calls the header array is the original one with
`n` copies of the auth headers appended.
-/
theorem iterGet_headers {α : Type} (tr : Transport α) (url : String) :
    ∀ (n : Nat) (s : Api α),
      (iterGet tr url n s).headers =
        s.headers ++ (List.replicate n s.auth.getHeaders).flatten := by
  intro n
  induction n with
  | zero => intro s; simp [iterGet]
  | succ n ih =>
      intro s
      rw [iterGet, ih]
      have h2 : (Api.get tr s url []).2 =
          { s with middleware := s.middleware ++ [],
                   headers := s.headers ++ s.auth.getHeaders } := by
        unfold Api.get
        rw [fetch_state]
      rw [h2]
      simp [List.replicate_succ, List.append_assoc]

/--
C1: the claim states that `applyMiddleware` on an empty middleware list
returns the initial data unchanged without invoking any middleware.  The
code has no empty-list guard: it evaluates `this.middleware[0](data,
nextHandler)` on a non-existent element, which raises a TypeError
(modelled as `MwError.notAFunction`) instead of returning the data, with
an empty invocation trace.  This theorem evaluates the code at the
failing input, exhibiting the divergence.
-/
theorem applyMiddleware_empty_raises {α : Type} (b : String) (au : Auth)
    (hs : List (List String)) (d : α) :
    (Api.mk b au hs []).applyMiddleware d =
      (Except.error MwError.notAFunction, []) := by
  rw [applyMiddleware_eq_runFrom]
  simp [runFrom_nil]

/--
C2 counterexample: for `N = 0` (the empty list of pass-through
middleware), chain execution does not return the initial data unchanged —
it raises instead — so the claim as stated, quantified over every `N`,
fails at the concrete input `N = 0`, initial data `42`.
-/
theorem chain_empty_not_identity :
    (Api.mk "u" (Auth.mk []) [] ([] : List (Middleware Nat))).applyMiddleware 42
      ≠ (Except.ok 42, ([] : List Nat)) := by
  rw [applyMiddleware_eq_runFrom]
  simp [runFrom_nil]

/--
C2 (amended: for every nonempty list of `N` pass-through middleware,
`N ≥ 1`): chain execution on `N = n + 1` pass-through middleware returns
the initial data unchanged, and the invocation trace is exactly
`[0, 1, ..., n]` — each of the `N` middleware invoked exactly once, in
list order, matching the cursor-incrementing continuation.
-/
theorem chain_passthrough_identity {α : Type} (b : String) (au : Auth)
    (hs : List (List String)) (n : Nat) (d : α) :
    (Api.mk b au hs
        (List.replicate (n + 1) (Middleware.forward id))).applyMiddleware d
      = (Except.ok d, List.range (n + 1)) := by
  rw [applyMiddleware_eq_runFrom]
  have hmap : (List.replicate (n + 1) (Middleware.forward (id : α → α)))
      = (List.replicate (n + 1) (id : α → α)).map Middleware.forward := by
    simp [List.map_replicate]
  rw [show (Api.mk b au hs
      (List.replicate (n + 1) (Middleware.forward id))).middleware
    = List.replicate (n + 1) (Middleware.forward (id : α → α)) from rfl]
  rw [hmap, runFrom_map_forward _ d (by simp), pipeline_replicate_id]
  simp

/--
C3 counterexample: the claim quantifies over every middleware list, but a
middleware ahead of position `k` that post-processes its continuation's
result changes the chain's overall result.  Concretely, for the list
`[post id succ, stop (const 5)]` and initial data `0`, the middleware at
position 1 never invokes its continuation and returns `5`, yet the
chain's overall result is `6` (the predecessor applies `succ` to it), so
the result does not equal the value returned by the middleware at
position `k = 1`.
-/
theorem chain_postprocess_cex :
    (Api.mk "u" (Auth.mk [])  []
        [Middleware.post id Nat.succ,
         Middleware.stop (fun _ => 5)]).applyMiddleware 0
      = (Except.ok 6, [0, 1])
    ∧ (Except.ok 6 : Except MwError Nat) ≠ Except.ok 5 := by
  constructor
  · rw [applyMiddleware_eq_runFrom]
    rfl
  · simp

/--
C3 (amended: restricted to lists whose middleware before position `k`
forward by tail-calling their continuation): for every forwarding prefix
`fs`, every short-circuiting middleware `stop g` at position `k =
fs.length`, and arbitrary middleware after it, the chain's result is
exactly what the `stop` middleware returns (`g` applied to the piped
data) and the invocation trace is `[0, ..., k]` — no middleware after
position `k` executes.
-/
theorem chain_short_circuit {α : Type} (b : String) (au : Auth)
    (hs : List (List String)) (fs : List (α → α)) (g : α → α)
    (rest : List (Middleware α)) (d : α) :
    (Api.mk b au hs
        (fs.map Middleware.forward ++ Middleware.stop g :: rest)).applyMiddleware d
      = (Except.ok (g (pipeline fs d)), List.range (fs.length + 1)) := by
  rw [applyMiddleware_eq_runFrom]
  rw [show (Api.mk b au hs
      (fs.map Middleware.forward ++ Middleware.stop g :: rest)).middleware
    = fs.map Middleware.forward ++ Middleware.stop g :: rest from rfl]
  rw [runFrom_stop_chain]

/--
C7: `use` appends exactly one middleware to the end of the handle-level
list and leaves every other component of the handle state (base URL,
auth, headers) unchanged; registering the same middleware twice makes it
appear twice in the list, and a chain run over a doubly-registered
pass-through middleware executes it twice (trace `[0, 1]`, the
transformation applied twice).
-/
theorem use_appends_middleware :
    (∀ (α : Type) (s : Api α) (m : Middleware α),
        s.use m = { s with middleware := s.middleware ++ [m] })
    ∧ (∀ (α : Type) (s : Api α) (m : Middleware α),
        ((s.use m).use m).middleware = s.middleware ++ [m, m])
    ∧ (∀ (α : Type) (b : String) (au : Auth) (hs : List (List String))
        (f : α → α) (d : α),
        (((Api.mk b au hs []).use (Middleware.forward f)).use
            (Middleware.forward f)).applyMiddleware d
          = (Except.ok (f (f d)), [0, 1])) := by
  refine ⟨fun α s m => rfl, fun α s m => by simp [Api.use], ?_⟩
  intro α b au hs f d
  rw [applyMiddleware_eq_runFrom]
  have hm : (((Api.mk b au hs []).use (Middleware.forward f)).use
      (Middleware.forward f)).middleware
      = [Middleware.forward f, Middleware.forward f] := by
    simp [Api.use]
  rw [hm, runFrom_forward_cons, runFrom_forward_last]
  simp [List.range]
  decide

/--
C10: `constructUrlWithQueryParams` returns the URL object built by
resolving the relative `url` against the handle's `baseUrl` (the inputs
of the platform `new URL(url, baseUrl)` call), with every key/value pair
of `params` appended as a search parameter in enumeration order, and
leaves the handle state unchanged.
-/
theorem constructUrlWithQueryParams_spec {α : Type} (s : Api α)
    (url : String) (params : List (String × String)) :
    s.constructUrlWithQueryParams url params
      = (⟨url, s.baseUrl, params⟩, s) := by
  unfold Api.constructUrlWithQueryParams
  rw [foldl_appendParam]
  simp [newURL]

/--
C4: for every `get` call, the state after the call holds the handle-level
list concatenated with the call-level middleware, and the executed chain
is exactly the chain engine run over that concatenated list (result and
trace); in particular, for handle-level `[forward f, forward g]` and
call-level `[forward h]`, the result applies `f`, then `g`, then `h` to
the response and the trace is `[0, 1, 2]` — handle-level entries first.
-/
theorem get_effective_chain {α : Type} (transport : Transport α) (resp : α)
    (H : ∀ req, transport req = Except.ok resp) (s : Api α) (url : String)
    (cs : List (Middleware α)) (f g h : α → α) (b : String) (au : Auth)
    (hh : List (List String)) :
    (Api.get transport s url cs).2.middleware = s.middleware ++ cs
    ∧ (Api.get transport s url cs).1.result
        = (invoke (s.middleware ++ cs) 0 resp).1.mapError FetchError.chain
    ∧ (Api.get transport s url cs).1.trace
        = (invoke (s.middleware ++ cs) 0 resp).2
    ∧ (Api.get transport
          (Api.mk b au hh [Middleware.forward f, Middleware.forward g]) url
          [Middleware.forward h]).1.result = Except.ok (h (g (f resp)))
    ∧ (Api.get transport
          (Api.mk b au hh [Middleware.forward f, Middleware.forward g]) url
          [Middleware.forward h]).1.trace = [0, 1, 2] := by
  have hget : ∀ (s' : Api α) (cs' : List (Middleware α)),
      Api.get transport s' url cs' =
        Api.fetch transport { s' with middleware := s'.middleware ++ cs' } url
          { method := RestMethods.GET } := fun _ _ => rfl
  have h3 := invoke_eq_runFrom
    [Middleware.forward f, Middleware.forward g, Middleware.forward h] 3 0 rfl resp
  simp only [List.drop_zero] at h3
  rw [show runFrom
      [Middleware.forward f, Middleware.forward g, Middleware.forward h] resp
    = (Except.ok (h (g (f resp))), 3) from rfl] at h3
  refine ⟨?_, ?_, ?_, ?_, ?_⟩
  · rw [hget, fetch_state]
  · rw [hget, fetch_transport_ok (H _)]
  · rw [hget, fetch_transport_ok (H _)]
  · rw [hget, fetch_transport_ok (H _)]
    simp [h3, Except.mapError]
  · rw [hget, fetch_transport_ok (H _)]
    simp [h3]
    decide

/--
C4 witness: concrete instance of `get_effective_chain` with response `5`,
handle-level middleware adding one then doubling, call-level middleware
adding ten: the call resolves with `(5+1)*2+10 = 22` and the trace shows
the three middleware executing in handle-then-call order.
-/
theorem get_effective_chain_witness :
    (Api.get (fun _ => Except.ok (5 : Nat))
        (Api.mk "b" (Auth.mk []) []
          [Middleware.forward (fun x => x + 1),
           Middleware.forward (fun x => x * 2)])
        "/items" [Middleware.forward (fun x => x + 10)]).1.result
      = Except.ok 22
    ∧ (Api.get (fun _ => Except.ok (5 : Nat))
        (Api.mk "b" (Auth.mk []) []
          [Middleware.forward (fun x => x + 1),
           Middleware.forward (fun x => x * 2)])
        "/items" [Middleware.forward (fun x => x + 10)]).1.trace
      = [0, 1, 2] := by
  have hthm := get_effective_chain (fun _ => Except.ok (5 : Nat)) 5
    (fun _ => rfl) (Api.mk "b" (Auth.mk []) [] []) "/items" []
    (fun x => x + 1) (fun x => x * 2) (fun x => x + 10) "b" (Auth.mk []) []
  exact ⟨hthm.2.2.2.1, hthm.2.2.2.2⟩

/--
C5: every verb operation (get/put/post/delete) given call-level
middleware appends it onto the handle's persistent middleware list, and
nothing ever removes it: after a `get` with call-level list `ms₁`
followed by a `get` with call-level list `ms₂` on the resulting handle,
the second call's effective chain is the original handle list followed by
`ms₁` followed by `ms₂` — the first call's middleware has leaked into the
second call's chain.
-/
theorem verbs_append_middleware {α : Type} (transport t₂ : Transport α)
    (stringify : String → String) (s : Api α) (url u₂ payload : String)
    (cs ms₁ ms₂ : List (Middleware α)) :
    (Api.get transport s url cs).2.middleware = s.middleware ++ cs
    ∧ (Api.put transport stringify s url payload cs).2.middleware
        = s.middleware ++ cs
    ∧ (Api.post transport stringify s url payload cs).2.middleware
        = s.middleware ++ cs
    ∧ (Api.delete transport stringify s url payload cs).2.middleware
        = s.middleware ++ cs
    ∧ (Api.get t₂ (Api.get transport s url ms₁).2 u₂ ms₂).2.middleware
        = s.middleware ++ ms₁ ++ ms₂ := by
  have hget : ∀ (tr : Transport α) (s' : Api α) (u : String)
      (cs' : List (Middleware α)),
      Api.get tr s' u cs' =
        Api.fetch tr { s' with middleware := s'.middleware ++ cs' } u
          { method := RestMethods.GET } := fun _ _ _ _ => rfl
  refine ⟨?_, ?_, ?_, ?_, ?_⟩
  · rw [hget, fetch_state]
  · rw [show Api.put transport stringify s url payload cs =
      Api.fetch transport { s with middleware := s.middleware ++ cs } url
        { method := RestMethods.PUT, body := some (stringify payload) }
      from rfl, fetch_state]
  · rw [show Api.post transport stringify s url payload cs =
      Api.fetch transport { s with middleware := s.middleware ++ cs } url
        { method := RestMethods.POST, body := some (stringify payload) }
      from rfl, fetch_state]
  · rw [show Api.delete transport stringify s url payload cs =
      Api.fetch transport { s with middleware := s.middleware ++ cs } url
        { method := RestMethods.DELETE, body := some (stringify payload) }
      from rfl, fetch_state]
  · rw [hget, fetch_state, hget, fetch_state]

/--
C6: the claim states that every call sends the handle-level headers
merged with the auth strategy's headers to the transport.  The code binds
`combinedHeaders` to the return value of
`this.headers.push(...this.auth.getHeaders())` — `Array.push` returns the
NEW LENGTH of the mutated array, not the array — so the transport
receives a number as the `headers` option.  General part: every `get`
sends `HeaderArg.count` of the merged array's length.  Concrete part:
with handle headers `[["X","1"]]` and auth headers
`[["Authorization","Bearer t"]]`, the request's `headers` field is the
number `2`, which is not the merged pair list the claim requires.
-/
theorem fetch_headers_push_bug :
    (∀ (α : Type) (transport : Transport α) (s : Api α) (url : String)
        (cs : List (Middleware α)),
        (Api.get transport s url cs).1.sent.headers
          = HeaderArg.count (s.headers ++ s.auth.getHeaders).length)
    ∧ (Api.get (fun _ => Except.ok 0)
          (Api.mk "https://api.example.com"
            (Auth.mk [["Authorization", "Bearer t"]]) [["X", "1"]]
            ([] : List (Middleware Nat))) "/x" []).1.sent.headers
        = HeaderArg.count 2
    ∧ HeaderArg.count 2
        ≠ HeaderArg.pairs [["X", "1"], ["Authorization", "Bearer t"]] := by
  have hgen : ∀ (α : Type) (transport : Transport α) (s : Api α)
      (url : String) (cs : List (Middleware α)),
      (Api.get transport s url cs).1.sent.headers
        = HeaderArg.count (s.headers ++ s.auth.getHeaders).length := by
    intro α transport s url cs
    rw [show Api.get transport s url cs =
      Api.fetch transport { s with middleware := s.middleware ++ cs } url
        { method := RestMethods.GET } from rfl, fetch_sent]
    rfl
  refine ⟨hgen, ?_, by decide⟩
  rw [hgen]
  rfl

/--
C8: all failures propagate unchanged to the caller as a rejection.  If
the transport fails with `e`, the call rejects with exactly that error
and no middleware runs (empty trace, hence no retry and nothing
swallowed).  If a middleware fails internally after a forwarding prefix,
the call rejects with exactly the thrown error, and the trace stops at
the failing middleware — no middleware after it runs.
-/
theorem fetch_error_propagation {α : Type} (transport : Transport α)
    (s : Api α) (url : String) (cs : List (Middleware α)) (e : String)
    (He : ∀ req, transport req = Except.error e) (t₂ : Transport α)
    (resp : α) (Hok : ∀ req, t₂ req = Except.ok resp) (b : String)
    (au : Auth) (hh : List (List String)) (fs : List (α → α))
    (msg : String) (rest : List (Middleware α)) :
    ((Api.get transport s url cs).1.result
        = Except.error (FetchError.transport e)
    ∧ (Api.get transport s url cs).1.trace = [])
    ∧ ((Api.get t₂ (Api.mk b au hh
          (fs.map Middleware.forward ++ Middleware.fail msg :: rest))
          url []).1.result
        = Except.error (FetchError.chain (MwError.thrown msg))
    ∧ (Api.get t₂ (Api.mk b au hh
          (fs.map Middleware.forward ++ Middleware.fail msg :: rest))
          url []).1.trace
        = List.range (fs.length + 1)) := by
  have hget : ∀ (tr : Transport α) (s' : Api α) (cs' : List (Middleware α)),
      Api.get tr s' url cs' =
        Api.fetch tr { s' with middleware := s'.middleware ++ cs' } url
          { method := RestMethods.GET } := fun _ _ _ => rfl
  have h3 := invoke_eq_runFrom
    (fs.map Middleware.forward ++ Middleware.fail msg :: rest)
    (fs.map Middleware.forward ++ Middleware.fail msg :: rest).length 0
    (by simp) resp
  simp only [List.drop_zero] at h3
  rw [runFrom_fail_chain] at h3
  refine ⟨⟨?_, ?_⟩, ?_, ?_⟩
  · rw [hget, fetch_transport_error (He _)]
  · rw [hget, fetch_transport_error (He _)]
  · rw [hget, fetch_transport_ok (Hok _)]
    simp [h3, Except.mapError]
  · rw [hget, fetch_transport_ok (Hok _)]
    simp [h3, List.range_eq_range']

/--
C8 witness: concrete instances — a transport failing with `"netdown"`
rejects the call with exactly that error and runs no middleware; a chain
`[forward (+1), fail "boom", stop id]` behind a succeeding transport
rejects with exactly `"boom"` with trace `[0, 1]`, so the `stop`
middleware after the failing one never runs.
-/
theorem fetch_error_propagation_witness :
    ((Api.get (fun _ => Except.error "netdown")
        (Api.mk "b" (Auth.mk []) [] ([] : List (Middleware Nat)))
        "/x" []).1.result = Except.error (FetchError.transport "netdown")
    ∧ (Api.get (fun _ => Except.error "netdown")
        (Api.mk "b" (Auth.mk []) [] ([] : List (Middleware Nat)))
        "/x" []).1.trace = [])
    ∧ ((Api.get (fun _ => Except.ok (7 : Nat))
        (Api.mk "b" (Auth.mk [])  []
          [Middleware.forward (fun x => x + 1), Middleware.fail "boom",
           Middleware.stop id]) "/x" []).1.result
        = Except.error (FetchError.chain (MwError.thrown "boom"))
    ∧ (Api.get (fun _ => Except.ok (7 : Nat))
        (Api.mk "b" (Auth.mk [])  []
          [Middleware.forward (fun x => x + 1), Middleware.fail "boom",
           Middleware.stop id]) "/x" []).1.trace = [0, 1]) := by
  have hthm := fetch_error_propagation (fun _ => Except.error "netdown")
    (Api.mk "b" (Auth.mk []) [] ([] : List (Middleware Nat))) "/x" []
    "netdown" (fun _ => rfl) (fun _ => Except.ok (7 : Nat)) 7 (fun _ => rfl)
    "b" (Auth.mk []) [] [fun x => x + 1] "boom" [Middleware.stop id]
  exact ⟨⟨hthm.1.1, hthm.1.2⟩, hthm.2.1, hthm.2.2⟩

/--
C9: every verb operation mutates the handle's persistent header array by
appending the auth strategy's headers (the side effect of
`this.headers.push(...this.auth.getHeaders())`), and nothing ever removes
them; after `n` successive `get` calls on the same handle the header
array is the originally supplied one followed by `n` copies of the auth
headers.
-/
theorem fetch_headers_accumulate {α : Type} (transport : Transport α)
    (stringify : String → String) (s : Api α) (url payload : String)
    (cs : List (Middleware α)) (n : Nat) :
    (Api.get transport s url cs).2.headers = s.headers ++ s.auth.getHeaders
    ∧ (Api.put transport stringify s url payload cs).2.headers
        = s.headers ++ s.auth.getHeaders
    ∧ (Api.post transport stringify s url payload cs).2.headers
        = s.headers ++ s.auth.getHeaders
    ∧ (Api.delete transport stringify s url payload cs).2.headers
        = s.headers ++ s.auth.getHeaders
    ∧ (iterGet transport url n s).headers
        = s.headers ++ (List.replicate n s.auth.getHeaders).flatten := by
  refine ⟨?_, ?_, ?_, ?_, iterGet_headers transport url n s⟩
  · rw [show Api.get transport s url cs =
      Api.fetch transport { s with middleware := s.middleware ++ cs } url
        { method := RestMethods.GET } from rfl, fetch_state]
  · rw [show Api.put transport stringify s url payload cs =
      Api.fetch transport { s with middleware := s.middleware ++ cs } url
        { method := RestMethods.PUT, body := some (stringify payload) }
      from rfl, fetch_state]
  · rw [show Api.post transport stringify s url payload cs =
      Api.fetch transport { s with middleware := s.middleware ++ cs } url
        { method := RestMethods.POST, body := some (stringify payload) }
      from rfl, fetch_state]
  · rw [show Api.delete transport stringify s url payload cs =
      Api.fetch transport { s with middleware := s.middleware ++ cs } url
        { method := RestMethods.DELETE, body := some (stringify payload) }
      from rfl, fetch_state]

end Ozzy
